import Mathlib

/-!
Verification of the expense-splitter calculation core (`script.js`).

Shallow embedding of the two modules carrying the program logic:

* `Decimal` — fixed-point money arithmetic over decimal strings
  (`toCents`, `fromCents`, `divideEqually`, `compare`);
* `Calculator` — balance aggregation (`calculateBalances`) and the greedy
  settlement engine (`calculateSettlements`).

Modelling conventions:

* JS numbers holding integer cent values are modelled as `Int`.
* Strings are modelled by their character lists; `String.trim` is
  `trimChars` over an explicit whitespace class.
* `parseFloat`/`Number` string parsing is modelled for the fixed-point
  decimal subset of the JS numeric grammar (optional sign, integer
  digits, optional '.' and fraction digits); exponent, hex and Infinity
  forms are outside the model, and `Math.round` on the floating-point
  product is modelled as exact rounding of the decimal value.
* JS string-keyed objects are modelled as association lists in
  first-insertion order with last-write-wins (`objInsert`), or as
  `String → Option _` maps where only the values matter (`BalMap`).
* Reading a property of `undefined` (a missing object entry) throws a JS
  `TypeError`; this is modelled by `Except CalcError` with the
  `CalcError.typeError` constructor.
-/

namespace Decimal

/-- Whitespace removed by `String.trim` (ASCII subset of the JS class). -/
def isJsWs (c : Char) : Bool :=
  c = ' ' || c = '\t' || c = '\n' || c = '\r' || c = '\x0b' || c = '\x0c'

/-- `String.trim`: drop leading and trailing whitespace. -/
def trimChars (l : List Char) : List Char :=
  ((l.dropWhile isJsWs).reverse.dropWhile isJsWs).reverse

/-- Decimal digit characters `'0'`–`'9'`. -/
def isDigitCh (c : Char) : Bool := 48 ≤ c.toNat && c.toNat ≤ 57

/-- Numeric value of a digit character. -/
def digitVal (c : Char) : Nat := c.toNat - 48

/-- Value of a string of decimal digits (most significant first). -/
def digitsToNat (ds : List Char) : Nat := ds.foldl (fun acc c => 10 * acc + digitVal c) 0

/-- A parsed fixed-point decimal literal: sign, value of the integer
digits, and the fractional digits in order. -/
structure ParsedNum where
  neg : Bool
  intPart : Nat
  fracDigits : List Nat
  deriving DecidableEq

/-- Parse the part of a fixed-point decimal literal after the optional
sign: `digits` / `digits . digits?` / `. digits` — at least one digit
overall and nothing after the fraction. -/
def parseUnsigned (neg : Bool) (rest : List Char) : Option ParsedNum :=
  let intDs := rest.takeWhile isDigitCh
  let rest1 := rest.dropWhile isDigitCh
  if rest1.isEmpty then
    if intDs.isEmpty then none else some ⟨neg, digitsToNat intDs, []⟩
  else if rest1.headD ' ' = '.' then
    let rest2 := rest1.tail
    let fracDs := rest2.takeWhile isDigitCh
    let rest3 := rest2.dropWhile isDigitCh
    if rest3.isEmpty && !(intDs.isEmpty && fracDs.isEmpty) then
      some ⟨neg, digitsToNat intDs, fracDs.map digitVal⟩
    else none
  else none

/-- Parse a complete string as a fixed-point decimal literal with an
optional leading sign.  `none` corresponds to `isNaN(str)` being `true`
for such strings. -/
def parseDecimal (l : List Char) : Option ParsedNum :=
  match l with
  | [] => none
  | c :: rest =>
    if c = '-' then parseUnsigned true rest
    else if c = '+' then parseUnsigned false rest
    else parseUnsigned false (c :: rest)

/-- Carry of `Math.round(v * 100)` for non-negative `v`: with
`v * 100 = A + t`, `A ∈ ℕ`, `t ∈ [0,1)` the tail beyond the first two
fractional digits, `⌊A + t + 1/2⌋ = A + 1` iff `t ≥ 1/2`, i.e. iff the
third fractional digit is at least 5. -/
def roundCarryPos (tail : List Nat) : Nat := if 5 ≤ tail.headD 0 then 1 else 0

/-- Carry of `Math.round(-(A + t))`: `⌊-(A + t) + 1/2⌋ = -(A + 1)` iff
`t > 1/2`, i.e. iff the third fractional digit exceeds 5, or equals 5
and is followed by a nonzero digit (`Math.round` rounds halves toward
`+∞`). -/
def roundCarryNeg (tail : List Nat) : Nat :=
  match tail with
  | [] => 0
  | d :: rest => if 5 < d ∨ (d = 5 ∧ ∃ x ∈ rest, x ≠ 0) then 1 else 0

/-- Exact value of `Math.round(v * 100)` for the decimal value `v`
described by `p` (see `roundCarryPos` / `roundCarryNeg` for the carry
derivation). -/
def centsOf (p : ParsedNum) : Int :=
  let d1 := p.fracDigits.headD 0
  let d2 := (p.fracDigits.drop 1).headD 0
  let tail := p.fracDigits.drop 2
  let A : Int := (p.intPart * 100 + 10 * d1 + d2 : Nat)
  if p.neg then -(A + roundCarryNeg tail) else A + roundCarryPos tail

/-- `Decimal.toCents` (script.js lines 11–15):
`const str = String(decimalStr).trim(); if (!str || isNaN(str)) return 0;
return Math.round(parseFloat(str) * 100);`. -/
def toCents (s : String) : Int :=
  let str := trimChars s.data
  if str.isEmpty then 0
  else
    match parseDecimal str with
    | none => 0
    | some p => centsOf p

/-- Fuel-based digit expansion (structural recursion keeps the function
reducible in the kernel; `fuel > n` always suffices since the argument
at least halves each step). -/
def natDigitsAux (fuel n : Nat) : List Char :=
  match fuel with
  | 0 => []
  | fuel + 1 =>
    if n < 10 then [Char.ofNat (48 + n)]
    else natDigitsAux fuel (n / 10) ++ [Char.ofNat (48 + n % 10)]

/-- Decimal digit characters of `n`, most significant first, no leading
zeros (`"0"` for zero). -/
def natDigits (n : Nat) : List Char := natDigitsAux (n + 1) n

/-- Exactly two digit characters for `n < 100`. -/
def twoDigits (n : Nat) : List Char := [Char.ofNat (48 + n / 10), Char.ofNat (48 + n % 10)]

/-- `Decimal.fromCents` (script.js lines 17–19): `(cents / 100).toFixed(2)`
— sign, integer part, `'.'`, exactly two fractional digits.  (`toFixed`
switches to exponential notation only beyond `1e21`, far outside the
modelled range.) -/
def fromCents (cents : Int) : String :=
  let a := cents.natAbs
  String.mk ((if cents < 0 then ['-'] else []) ++ natDigits (a / 100) ++ '.' :: twoDigits (a % 100))

/-- The loop `for (let i = 0; i < remainder; i++) shares[i]++`. -/
def incFirst : Nat → List Int → List Int
  | 0, l => l
  | _ + 1, [] => []
  | n + 1, x :: xs => (x + 1) :: incFirst n xs

/-- `Decimal.divideEqually` (script.js lines 33–47).  `Math.floor` of the
quotient of integers is floor division `Int.fdiv`. -/
def divideEqually (amount : String) (parts : Int) : List String :=
  if parts ≤ 0 then []
  else
    let totalCents := toCents amount
    let baseCents := totalCents.fdiv parts
    let remainder := totalCents - baseCents * parts
    (incFirst remainder.toNat (List.replicate parts.toNat baseCents)).map fromCents

/-- `Decimal.compare` (script.js lines 49–53). -/
protected def compare (a b : String) : Int := toCents a - toCents b

end Decimal

namespace Calculator

/-- A group member (fields not read by the calculation engine are
omitted). -/
structure Member where
  id : String
  name : String
  deriving DecidableEq

/-- An expense record (fields not read by the calculation engine are
omitted).  `amount` is a decimal string, `splitBetween` the ordered
participant list. -/
structure Expense where
  amount : String
  paidBy : String
  splitBetween : List String
  deriving DecidableEq

/-- A balance row as produced by `calculateBalances`. -/
structure Balance where
  memberId : String
  name : String
  totalPaid : String
  totalOwed : String
  netBalance : String
  deriving DecidableEq

/-- A settlement record `{from, fromId, to, toId, amount}` (the JS `from`
and `to` fields are `fromName`/`toName` here). -/
structure Settlement where
  fromName : String
  fromId : String
  toName : String
  toId : String
  amount : String
  deriving DecidableEq

/-- Failure modes of the engine.  The code can only throw the JS
`TypeError` arising from reading `.paidCents`/`.owedCents` of
`undefined`; the spec's `InvalidReference` precondition failure is
included for comparison and is never produced by the code. -/
inductive CalcError where
  | typeError
  | invalidReference
  deriving DecidableEq

instance {ε α : Type} [DecidableEq ε] [DecidableEq α] : DecidableEq (Except ε α) :=
  fun a b =>
    match a, b with
    | Except.ok x, Except.ok y =>
      if h : x = y then isTrue (by rw [h]) else isFalse (by intro hc; cases hc; exact h rfl)
    | Except.error x, Except.error y =>
      if h : x = y then isTrue (by rw [h]) else isFalse (by intro hc; cases hc; exact h rfl)
    | Except.ok _, Except.error _ => isFalse (by intro hc; cases hc)
    | Except.error _, Except.ok _ => isFalse (by intro hc; cases hc)

/-- JS object property assignment `m[k] = v` on a string-keyed object:
association list in first-insertion order, last write wins. -/
def objInsert (m : List (String × String)) (k v : String) : List (String × String) :=
  if m.any (fun p => p.1 = k) then m.map (fun p => if p.1 = k then (k, v) else p)
  else m ++ [(k, v)]

/-- `Calculator.calculateExpenseShares` (script.js lines 212–225): the JS
object `shares` with `shares[memberId] = amounts[index]` over
`splitBetween` is the `objInsert` fold over the zip. -/
def calculateExpenseShares (e : Expense) : List (String × String) :=
  let splitCount := e.splitBetween.length
  if splitCount = 0 then []
  else
    let amounts := Decimal.divideEqually e.amount (splitCount : Int)
    (e.splitBetween.zip amounts).foldl (fun m p => objInsert m p.1 p.2) []

/-- Per-member running totals held in `balanceMap`. -/
structure BalEntry where
  paidCents : Int
  owedCents : Int
  deriving DecidableEq

/-- The string-keyed `balanceMap` object. -/
def BalMap := String → Option BalEntry

/-- `balanceMap[k] = v`. -/
def mapUpdate (m : BalMap) (k : String) (v : BalEntry) : BalMap :=
  fun x => if x = k then some v else m x

/-- `balanceMap[k].field`: reading a field of a missing entry
(`undefined`) throws `TypeError`. -/
def lookupEntry (m : BalMap) (k : String) : Except CalcError BalEntry :=
  match m k with
  | some v => Except.ok v
  | none => Except.error CalcError.typeError

/-- `members.forEach(member => balanceMap[member.id] = {paidCents: 0,
owedCents: 0})`. -/
def initMap (members : List Member) : BalMap :=
  members.foldl (fun m mem => mapUpdate m mem.id ⟨0, 0⟩) (fun _ => none)

/-- Processing of one expense inside `calculateBalances` (script.js lines
244–251): credit the full amount to the payer, then add each computed
share to the participant's owed total. -/
def applyExpense (m : BalMap) (e : Expense) : Except CalcError BalMap := do
  let entry ← lookupEntry m e.paidBy
  let m1 := mapUpdate m e.paidBy ⟨entry.paidCents + Decimal.toCents e.amount, entry.owedCents⟩
  (calculateExpenseShares e).foldlM (fun acc p => do
    let en ← lookupEntry acc p.1
    pure (mapUpdate acc p.1 ⟨en.paidCents, en.owedCents + Decimal.toCents p.2⟩)) m1

/-- The final read-out of one member's row from the finished map (the
`balances.forEach` fill-in, script.js lines 253–258).  Keys read here are
member ids, all present since initialization, so the `getD` default is
dead code. -/
def balanceRow (f : BalMap) (mem : Member) : Balance :=
  let data := (f mem.id).getD ⟨0, 0⟩
  { memberId := mem.id, name := mem.name,
    totalPaid := Decimal.fromCents data.paidCents,
    totalOwed := Decimal.fromCents data.owedCents,
    netBalance := Decimal.fromCents (data.paidCents - data.owedCents) }

/-- `Calculator.calculateBalances` (script.js lines 227–261).  The source
first builds the rows with `'0.00'` placeholders and then overwrites them
from `balanceMap`; the net result is one row per member, in member
order, built from the final map. -/
def calculateBalances (members : List Member) (expenses : List Expense) :
    Except CalcError (List Balance) := do
  let finalMap ← expenses.foldlM applyExpense (initMap members)
  pure (members.map (balanceRow finalMap))

/-- A creditor/debtor work item `{memberId, name, amountCents}`. -/
structure Entry where
  memberId : String
  name : String
  amountCents : Int
  deriving DecidableEq

/-- The JS stable `sort((a, b) => b.amountCents - a.amountCents)`:
stable descending order by `amountCents`. -/
def sortDesc (es : List Entry) : List Entry :=
  List.insertionSort (fun a b => b.amountCents ≤ a.amountCents) es

/-- The unsorted creditor list of `calculateSettlements`. -/
def creditorEntries (balances : List Balance) : List Entry :=
  (balances.filter (fun b => 0 < Decimal.compare b.netBalance "0.00")).map
    (fun b => ⟨b.memberId, b.name, Decimal.toCents b.netBalance⟩)

/-- The unsorted debtor list of `calculateSettlements` (`Math.abs` on an
integer is `Int.natAbs`). -/
def debtorEntries (balances : List Balance) : List Entry :=
  (balances.filter (fun b => Decimal.compare b.netBalance "0.00" < 0)).map
    (fun b => ⟨b.memberId, b.name, ((Decimal.toCents b.netBalance).natAbs : Int)⟩)

/-- The two-cursor matching loop of `calculateSettlements` (script.js
lines 284–307).  Each iteration settles `min` of the two current
amounts; since the minimum always equals one of them, the corresponding
remainder hits zero and that cursor advances: advancing a cursor is
dropping the list head, a kept-but-reduced entry is a re-consed head. -/
def settleLoop (creditors debtors : List Entry) : List Settlement :=
  match creditors, debtors with
  | [], _ => []
  | _ :: _, [] => []
  | c :: cs, d :: ds =>
    if c.amountCents ≤ d.amountCents then
      (if 0 < c.amountCents then
        [⟨d.name, d.memberId, c.name, c.memberId, Decimal.fromCents c.amountCents⟩]
       else []) ++
      (if c.amountCents = d.amountCents then settleLoop cs ds
       else settleLoop cs ({ d with amountCents := d.amountCents - c.amountCents } :: ds))
    else
      (if 0 < d.amountCents then
        [⟨d.name, d.memberId, c.name, c.memberId, Decimal.fromCents d.amountCents⟩]
       else []) ++
      settleLoop ({ c with amountCents := c.amountCents - d.amountCents } :: cs) ds
  termination_by creditors.length + debtors.length
  decreasing_by
    all_goals simp only [List.length_cons]
    all_goals omega

/-- `Calculator.calculateSettlements` (script.js lines 263–310). -/
def calculateSettlements (balances : List Balance) : List Settlement :=
  settleLoop (sortDesc (creditorEntries balances)) (sortDesc (debtorEntries balances))

/-- The member ids of a member list. -/
def idsOf (members : List Member) : List String := members.map Member.id

/-- Sum of the net balances of a balance list, in minor units. -/
def sumNet (bs : List Balance) : Int := (bs.map (fun b => Decimal.toCents b.netBalance)).sum

/-- Sum of the `totalPaid` columns, in minor units. -/
def sumPaidStr (bs : List Balance) : Int := (bs.map (fun b => Decimal.toCents b.totalPaid)).sum

/-- Sum of the `totalOwed` columns, in minor units. -/
def sumOwedStr (bs : List Balance) : Int := (bs.map (fun b => Decimal.toCents b.totalOwed)).sum

/-- Sum of the amounts of a work-item list. -/
def sumE (es : List Entry) : Int := (es.map Entry.amountCents).sum

/-- Sum of the amounts of the work items belonging to member `X`. -/
def idSum (X : String) (es : List Entry) : Int :=
  ((es.filter (fun e => e.memberId = X)).map Entry.amountCents).sum

/-- Net balances of the rows belonging to member `X`, in minor units. -/
def netIdSum (X : String) (bs : List Balance) : Int :=
  ((bs.filter (fun b => b.memberId = X)).map (fun b => Decimal.toCents b.netBalance)).sum

/-- Total settlement money flowing to `X`, in minor units. -/
def amountTo (X : String) (ss : List Settlement) : Int :=
  ((ss.filter (fun s => s.toId = X)).map (fun s => Decimal.toCents s.amount)).sum

/-- Total settlement money flowing from `X`, in minor units. -/
def amountFrom (X : String) (ss : List Settlement) : Int :=
  ((ss.filter (fun s => s.fromId = X)).map (fun s => Decimal.toCents s.amount)).sum

/-- Sum of the `paidCents` entries of `f` over a list of ids. -/
def sumPaid (f : BalMap) (ids : List String) : Int :=
  (ids.map (fun i => ((f i).getD ⟨0, 0⟩).paidCents)).sum

/-- Sum of the `owedCents` entries of `f` over a list of ids. -/
def sumOwed (f : BalMap) (ids : List String) : Int :=
  (ids.map (fun i => ((f i).getD ⟨0, 0⟩).owedCents)).sum

/-- `balanceMap` well-formedness: the keys are exactly the given ids. -/
def InvMap (f : BalMap) (ids : List String) : Prop :=
  ∀ k, (f k).isSome = true ↔ k ∈ ids

end Calculator

namespace Decimal

/-- Canonical unsigned two-decimal form: nonempty integer digits with no
leading zero, `'.'`, exactly two fractional digits. -/
def twoDecCore (l : List Char) : Bool :=
  let intDs := l.takeWhile isDigitCh
  let rest := l.dropWhile isDigitCh
  !intDs.isEmpty &&
  (intDs.headD '0' != '0' || intDs == ['0']) &&
  rest.length == 3 && rest.headD ' ' == '.' &&
  isDigitCh (rest.getD 1 ' ') && isDigitCh (rest.getD 2 ' ')

/-- A well-formed (canonical) two-decimal string: optional minus sign —
only on nonzero values — then the canonical unsigned form. -/
def twoDecWellFormed (s : String) : Bool :=
  if s.data.headD ' ' = '-' then
    twoDecCore s.data.tail && s.data.tail ≠ ['0', '.', '0', '0']
  else twoDecCore s.data

/-! ### Character and digit-string lemmas -/

lemma isDigitCh_iff {c : Char} : isDigitCh c = true ↔ 48 ≤ c.toNat ∧ c.toNat ≤ 57 := by
  simp [isDigitCh]

lemma isDigitCh_ofNat {d : Nat} (h : d < 10) : isDigitCh (Char.ofNat (48 + d)) = true := by
  interval_cases d <;> decide

lemma digitVal_ofNat {d : Nat} (h : d < 10) : digitVal (Char.ofNat (48 + d)) = d := by
  interval_cases d <;> decide

lemma digitVal_lt_ten {c : Char} (h : isDigitCh c = true) : digitVal c < 10 := by
  rcases isDigitCh_iff.mp h with ⟨h1, h2⟩
  simp only [digitVal]
  omega

lemma ofNat_digitVal {c : Char} (h : isDigitCh c = true) : Char.ofNat (48 + digitVal c) = c := by
  rcases isDigitCh_iff.mp h with ⟨h1, _⟩
  have hv : 48 + digitVal c = c.toNat := by simp only [digitVal]; omega
  rw [hv, Char.ofNat_toNat]

lemma not_ws_of_digit {c : Char} (h : isDigitCh c = true) : isJsWs c = false := by
  by_contra hne
  rw [Bool.not_eq_false] at hne
  simp only [isJsWs, Bool.or_eq_true, decide_eq_true_eq] at hne
  rcases hne with ((((rfl | rfl) | rfl) | rfl) | rfl) | rfl <;> exact absurd h (by decide)

lemma dropWhile_eq_self {p : Char → Bool} {l : List Char} (h : ∀ c ∈ l, p c = false) :
    l.dropWhile p = l := by
  cases l with
  | nil => rfl
  | cons x xs => simp [List.dropWhile_cons, h x (List.mem_cons_self x xs)]

lemma trimChars_eq_self {l : List Char} (h : ∀ c ∈ l, isJsWs c = false) : trimChars l = l := by
  unfold trimChars
  rw [dropWhile_eq_self h,
    dropWhile_eq_self (fun c hc => h c (List.mem_reverse.mp hc)), List.reverse_reverse]

lemma takeWhile_all {p : Char → Bool} {l : List Char} (h : ∀ c ∈ l, p c = true) :
    l.takeWhile p = l := by
  induction l with
  | nil => rfl
  | cons x xs ih =>
    simp [List.takeWhile_cons, h x (List.mem_cons_self x xs),
      ih (fun c hc => h c (List.mem_cons_of_mem x hc))]

lemma dropWhile_all {p : Char → Bool} {l : List Char} (h : ∀ c ∈ l, p c = true) :
    l.dropWhile p = [] := by
  induction l with
  | nil => rfl
  | cons x xs ih =>
    simp [List.dropWhile_cons, h x (List.mem_cons_self x xs),
      ih (fun c hc => h c (List.mem_cons_of_mem x hc))]

lemma takeWhile_append_of (p : Char → Bool) (xs : List Char) (y : Char) (ys : List Char)
    (hall : ∀ c ∈ xs, p c = true) (hy : p y = false) :
    (xs ++ y :: ys).takeWhile p = xs := by
  induction xs with
  | nil => simp [List.takeWhile_cons, hy]
  | cons a as ih =>
    simp [List.takeWhile_cons, hall a (List.mem_cons_self a as),
      ih (fun c hc => hall c (List.mem_cons_of_mem a hc))]

lemma dropWhile_append_of (p : Char → Bool) (xs : List Char) (y : Char) (ys : List Char)
    (hall : ∀ c ∈ xs, p c = true) (hy : p y = false) :
    (xs ++ y :: ys).dropWhile p = y :: ys := by
  induction xs with
  | nil => simp [List.dropWhile_cons, hy]
  | cons a as ih =>
    simp [List.dropWhile_cons, hall a (List.mem_cons_self a as),
      ih (fun c hc => hall c (List.mem_cons_of_mem a hc))]

lemma digitsToNat_go (l : List Char) (acc : Nat) :
    l.foldl (fun acc c => 10 * acc + digitVal c) acc = acc * 10 ^ l.length + digitsToNat l := by
  induction l generalizing acc with
  | nil => simp [digitsToNat]
  | cons x xs ih =>
    simp only [List.foldl_cons, List.length_cons, digitsToNat]
    rw [ih (10 * acc + digitVal x), ih (10 * 0 + digitVal x)]
    ring

lemma digitsToNat_append (a b : List Char) :
    digitsToNat (a ++ b) = digitsToNat a * 10 ^ b.length + digitsToNat b := by
  simp only [digitsToNat, List.foldl_append]
  exact digitsToNat_go b _

lemma digitsToNat_singleton (c : Char) : digitsToNat [c] = digitVal c := by
  simp [digitsToNat]

/-! ### `natDigits` lemmas -/

lemma natDigitsAux_congr : ∀ {f1 f2 n : Nat}, n < f1 → n < f2 →
    natDigitsAux f1 n = natDigitsAux f2 n := by
  intro f1
  induction f1 with
  | zero => intro f2 n h1; omega
  | succ f1 ih =>
    intro f2 n h1 h2
    cases f2 with
    | zero => omega
    | succ f2 =>
      simp only [natDigitsAux]
      by_cases h : n < 10
      · simp [h]
      · simp only [if_neg h]
        congr 1
        exact ih (show n / 10 < f1 by omega) (show n / 10 < f2 by omega)

lemma natDigits_eq (n : Nat) :
    natDigits n = if n < 10 then [Char.ofNat (48 + n)]
      else natDigits (n / 10) ++ [Char.ofNat (48 + n % 10)] := by
  show natDigitsAux (n + 1) n = _
  simp only [natDigitsAux]
  by_cases h : n < 10
  · simp [h]
  · simp only [if_neg h]
    congr 1
    exact natDigitsAux_congr (by omega) (by omega)

lemma natDigits_ne_nil (n : Nat) : natDigits n ≠ [] := by
  rw [natDigits_eq]
  split <;> simp

lemma natDigits_all_digit (n : Nat) : ∀ c ∈ natDigits n, isDigitCh c = true := by
  induction n using Nat.strong_induction_on with
  | _ n ih =>
    rw [natDigits_eq]
    split
    · next h =>
      intro c hc
      rw [List.mem_singleton] at hc
      subst hc
      exact isDigitCh_ofNat h
    · next h =>
      intro c hc
      rw [List.mem_append, List.mem_singleton] at hc
      rcases hc with hc | rfl
      · exact ih (n / 10) (by omega) c hc
      · exact isDigitCh_ofNat (by omega)

lemma digitsToNat_natDigits (n : Nat) : digitsToNat (natDigits n) = n := by
  induction n using Nat.strong_induction_on with
  | _ n ih =>
    rw [natDigits_eq]
    split
    · next h => rw [digitsToNat_singleton, digitVal_ofNat h]
    · next h =>
      rw [digitsToNat_append, digitsToNat_singleton, digitVal_ofNat (show n % 10 < 10 by omega),
        ih (n / 10) (by omega)]
      simp only [List.length_singleton, pow_one]
      omega

lemma natDigits_not_empty (u : Nat) : (natDigits u).isEmpty = false := by
  rcases hnd : natDigits u with _ | ⟨a, as⟩
  · exact absurd hnd (natDigits_ne_nil u)
  · rfl

/-! ### Round trip `toCents ∘ fromCents = id` -/

lemma twoDigits_all_digit {n : Nat} (h : n < 100) : ∀ c ∈ twoDigits n, isDigitCh c = true := by
  intro c hc
  simp only [twoDigits, List.mem_cons, List.not_mem_nil, or_false] at hc
  rcases hc with rfl | rfl
  · exact isDigitCh_ofNat (by omega)
  · exact isDigitCh_ofNat (by omega)

lemma map_digitVal_twoDigits {n : Nat} (h : n < 100) :
    (twoDigits n).map digitVal = [n / 10, n % 10] := by
  simp [twoDigits, digitVal_ofNat (show n / 10 < 10 by omega),
    digitVal_ofNat (show n % 10 < 10 by omega)]

lemma fromCents_data (c : Int) :
    (fromCents c).data =
      (if c < 0 then ['-'] else []) ++ natDigits (c.natAbs / 100) ++
        '.' :: twoDigits (c.natAbs % 100) := rfl

lemma fromCents_no_ws (c : Int) : ∀ ch ∈ (fromCents c).data, isJsWs ch = false := by
  intro ch hch
  rw [fromCents_data] at hch
  simp only [List.mem_append, List.mem_cons] at hch
  rcases hch with (hch | hch) | rfl | hch
  · split at hch
    · rw [List.mem_singleton] at hch
      subst hch
      decide
    · simp at hch
  · exact not_ws_of_digit (natDigits_all_digit _ ch hch)
  · decide
  · exact not_ws_of_digit (twoDigits_all_digit (Nat.mod_lt _ (by omega)) ch hch)

lemma parseUnsigned_print (neg : Bool) (u n : Nat) (hn : n < 100) :
    parseUnsigned neg (natDigits u ++ '.' :: twoDigits n) = some ⟨neg, u, [n / 10, n % 10]⟩ := by
  have htake := takeWhile_append_of isDigitCh (natDigits u) '.' (twoDigits n)
    (natDigits_all_digit u) (by decide)
  have hdrop := dropWhile_append_of isDigitCh (natDigits u) '.' (twoDigits n)
    (natDigits_all_digit u) (by decide)
  simp only [parseUnsigned, htake, hdrop, List.isEmpty_cons, List.headD_cons, List.tail_cons,
    takeWhile_all (twoDigits_all_digit hn), dropWhile_all (twoDigits_all_digit hn),
    natDigits_not_empty, digitsToNat_natDigits, map_digitVal_twoDigits hn,
    List.isEmpty_nil, Bool.false_eq_true, if_false, Bool.false_and, Bool.not_false,
    Bool.and_true, if_true]

lemma parseDecimal_cons_digit {d : Char} (h : isDigitCh d = true) (rest : List Char) :
    parseDecimal (d :: rest) = parseUnsigned false (d :: rest) := by
  have h1 : d ≠ '-' := by intro he; subst he; exact absurd h (by decide)
  have h2 : d ≠ '+' := by intro he; subst he; exact absurd h (by decide)
  simp [parseDecimal, h1, h2]

lemma centsOf_pair (b : Bool) (u x y : Nat) :
    centsOf ⟨b, u, [x, y]⟩ =
      if b then -((u * 100 + 10 * x + y : Nat) : Int) else ((u * 100 + 10 * x + y : Nat) : Int) := by
  cases b
  · show ((u * 100 + 10 * [x, y].headD 0 + ([y].headD 0) : Nat) : Int) + roundCarryPos [] = _
    simp [roundCarryPos]
  · show -(((u * 100 + 10 * [x, y].headD 0 + ([y].headD 0) : Nat) : Int) + roundCarryNeg []) = _
    simp [roundCarryNeg]

lemma toCents_of_parse {s : String} {p : ParsedNum} (htrim : trimChars s.data = s.data)
    (hp : parseDecimal s.data = some p) : toCents s = centsOf p := by
  have hne : s.data.isEmpty = false := by
    cases hd : s.data with
    | nil => rw [hd] at hp; exact absurd hp (by simp [parseDecimal])
    | cons a l => rfl
  simp only [toCents, htrim, hne, Bool.false_eq_true, if_false, hp]

/-- The conversion round trip: reading back a formatted cent value is the
identity, for every integer cent value. -/
theorem toCents_fromCents (c : Int) : toCents (fromCents c) = c := by
  have hmod : c.natAbs % 100 < 100 := Nat.mod_lt _ (by omega)
  have harith : c.natAbs / 100 * 100 + 10 * (c.natAbs % 100 / 10) + c.natAbs % 100 % 10
      = c.natAbs := by omega
  have htrim := trimChars_eq_self (fromCents_no_ws c)
  by_cases hc : c < 0
  · have hp : parseDecimal (fromCents c).data =
        some ⟨true, c.natAbs / 100, [c.natAbs % 100 / 10, c.natAbs % 100 % 10]⟩ := by
      rw [fromCents_data, if_pos hc, List.singleton_append, List.cons_append,
        show ∀ L, parseDecimal ('-' :: L) = parseUnsigned true L from fun L => by
          simp [parseDecimal],
        parseUnsigned_print true _ _ hmod]
    rw [toCents_of_parse htrim hp, centsOf_pair, if_pos rfl, harith]
    omega
  · obtain ⟨d0, ds, hnd⟩ := List.exists_cons_of_ne_nil (natDigits_ne_nil (c.natAbs / 100))
    have hd0 : isDigitCh d0 = true := by
      apply natDigits_all_digit
      rw [hnd]
      exact List.mem_cons_self _ _
    have hp : parseDecimal (fromCents c).data =
        some ⟨false, c.natAbs / 100, [c.natAbs % 100 / 10, c.natAbs % 100 % 10]⟩ := by
      rw [fromCents_data, if_neg hc, List.nil_append, hnd, List.cons_append,
        parseDecimal_cons_digit hd0, ← List.cons_append, ← hnd,
        parseUnsigned_print false _ _ hmod]
    rw [toCents_of_parse htrim hp, centsOf_pair, if_neg (by simp), harith]
    omega

lemma map_toCents_fromCents (l : List Int) : (l.map fromCents).map toCents = l := by
  rw [List.map_map]
  have h : ∀ a ∈ l, (toCents ∘ fromCents) a = id a := fun a _ => toCents_fromCents a
  rw [List.map_congr_left h, List.map_id]

/-! ### `divideEqually` structure -/

lemma fmod_eq_emod_of_pos (a : Int) {b : Int} (hb : 0 < b) : a.fmod b = a % b := by
  have h1 := Int.fdiv_add_fmod a b
  have h2 := Int.emod_def a b
  have h3 : a.fdiv b = a / b := Int.fdiv_eq_ediv a (by omega)
  rw [h3] at h1
  linarith [h1, h2]

lemma fmod_nonneg_of_pos (a : Int) {b : Int} (hb : 0 < b) : 0 ≤ a.fmod b := by
  rw [fmod_eq_emod_of_pos a hb]
  exact Int.emod_nonneg a (by omega)

lemma incFirst_replicate {r n : Nat} (b : Int) (h : r ≤ n) :
    incFirst r (List.replicate n b) = List.replicate r (b + 1) ++ List.replicate (n - r) b := by
  induction r generalizing n with
  | zero => simp [incFirst]
  | succ r ih =>
    cases n with
    | zero => omega
    | succ n =>
      simp only [List.replicate_succ, incFirst, Nat.succ_sub_succ, List.cons_append]
      rw [ih (by omega)]

lemma divideEqually_pos {parts : Int} (hp : 0 < parts) (s : String) :
    divideEqually s parts =
      (incFirst ((toCents s).fmod parts).toNat
        (List.replicate parts.toNat ((toCents s).fdiv parts))).map fromCents := by
  have hrem : toCents s - (toCents s).fdiv parts * parts = (toCents s).fmod parts := by
    have h1 := Int.fdiv_add_fmod (toCents s) parts
    linarith [h1, mul_comm ((toCents s).fdiv parts) parts]
  simp only [divideEqually, if_neg (show ¬parts ≤ 0 by omega), hrem]

lemma map_toCents_divideEqually {parts : Int} (hp : 0 < parts) (s : String) :
    (divideEqually s parts).map toCents =
      List.replicate ((toCents s).fmod parts).toNat ((toCents s).fdiv parts + 1) ++
        List.replicate (parts.toNat - ((toCents s).fmod parts).toNat)
          ((toCents s).fdiv parts) := by
  have h1 := Int.fmod_lt_of_pos (toCents s) hp
  have h2 := fmod_nonneg_of_pos (toCents s) hp
  rw [divideEqually_pos hp, map_toCents_fromCents, incFirst_replicate _ (by omega)]

lemma length_divideEqually {parts : Int} (hp : 0 < parts) (s : String) :
    (divideEqually s parts).length = parts.toNat := by
  have h1 := Int.fmod_lt_of_pos (toCents s) hp
  have h2 := fmod_nonneg_of_pos (toCents s) hp
  have hlen := congrArg List.length (map_toCents_divideEqually hp s)
  rw [List.length_map, List.length_append, List.length_replicate, List.length_replicate] at hlen
  omega

lemma sum_divideEqually {parts : Int} (hp : 0 < parts) (s : String) :
    ((divideEqually s parts).map toCents).sum = toCents s := by
  have h1 := Int.fmod_lt_of_pos (toCents s) hp
  have h2 := fmod_nonneg_of_pos (toCents s) hp
  have h3 := Int.fdiv_add_fmod (toCents s) parts
  rw [map_toCents_divideEqually hp, List.sum_append, List.sum_replicate, List.sum_replicate,
    nsmul_eq_mul, nsmul_eq_mul]
  have hc1 : ((((toCents s).fmod parts).toNat : Nat) : Int) = (toCents s).fmod parts := by omega
  have hc2 : ((parts.toNat - ((toCents s).fmod parts).toNat : Nat) : Int)
      = parts - (toCents s).fmod parts := by omega
  rw [hc1, hc2]
  linear_combination h3

lemma mem_divideEqually {parts : Int} (hp : 0 < parts) (s : String) {x : Int}
    (hx : x ∈ (divideEqually s parts).map toCents) :
    x = (toCents s).fdiv parts ∨ x = (toCents s).fdiv parts + 1 := by
  rw [map_toCents_divideEqually hp, List.mem_append] at hx
  rcases hx with hx | hx
  · right; exact List.eq_of_mem_replicate hx
  · left; exact List.eq_of_mem_replicate hx

/-! ### Canonical two-decimal strings are formatted cent values -/

lemma digitVal_eq_zero {c : Char} (h : isDigitCh c = true) (hv : digitVal c = 0) : c = '0' := by
  have hc := ofNat_digitVal h
  rw [hv] at hc
  rw [show Char.ofNat (48 + 0) = '0' from by decide] at hc
  exact hc.symm

lemma digitsToNat_pos {ds : List Char} (hne : ds ≠ [])
    (hdig : ∀ c ∈ ds, isDigitCh c = true) (hhead : ds.headD '0' ≠ '0') :
    1 ≤ digitsToNat ds := by
  cases ds with
  | nil => exact absurd rfl hne
  | cons h t =>
    have hh : isDigitCh h = true := hdig h (List.mem_cons_self h t)
    have hv : 1 ≤ digitVal h := by
      by_contra hcon
      have h0 : digitVal h = 0 := by omega
      exact absurd (digitVal_eq_zero hh h0) (by simpa using hhead)
    have heq : digitsToNat (h :: t) = digitVal h * 10 ^ t.length + digitsToNat t := by
      have := digitsToNat_append [h] t
      simpa [digitsToNat_singleton] using this
    rw [heq]
    have hp : 0 < 10 ^ t.length := pow_pos (by omega) _
    have := Nat.mul_pos (show 0 < digitVal h by omega) hp
    omega

lemma natDigits_digitsToNat : ∀ {ds : List Char}, ds ≠ [] →
    (∀ c ∈ ds, isDigitCh c = true) → (ds.headD '0' = '0' → ds = ['0']) →
    natDigits (digitsToNat ds) = ds := by
  intro ds
  induction ds using List.reverseRecOn with
  | nil => intro h; exact absurd rfl h
  | append_singleton init d ih =>
    intro _ hdig hlead
    have hd : isDigitCh d = true := hdig d (by simp)
    have hdv : digitVal d < 10 := digitVal_lt_ten hd
    by_cases hinit : init = []
    · subst hinit
      rw [List.nil_append] at hdig hlead ⊢
      rw [digitsToNat_singleton, natDigits_eq, if_pos hdv, ofNat_digitVal hd]
    · have hheadne : init.headD '0' ≠ '0' := by
        intro h0
        have hds : (init ++ [d]).headD '0' = init.headD '0' := by
          cases init with
          | nil => exact absurd rfl hinit
          | cons a t => simp
        have hsing := hlead (by rw [hds, h0])
        have hlen := congrArg List.length hsing
        simp only [List.length_append, List.length_singleton] at hlen
        have : init.length = 0 := by omega
        exact hinit (List.length_eq_zero.mp this)
      have hm : 1 ≤ digitsToNat init :=
        digitsToNat_pos hinit (fun c hc => hdig c (List.mem_append_left _ hc)) hheadne
      have hsum : digitsToNat (init ++ [d]) = digitsToNat init * 10 + digitVal d := by
        rw [digitsToNat_append, digitsToNat_singleton, List.length_singleton, pow_one]
      rw [hsum, natDigits_eq, if_neg (by omega),
        show (digitsToNat init * 10 + digitVal d) / 10 = digitsToNat init from by omega,
        show (digitsToNat init * 10 + digitVal d) % 10 = digitVal d from by omega,
        ofNat_digitVal hd,
        ih hinit (fun c hc => hdig c (List.mem_append_left _ hc))
          (fun h0 => absurd h0 hheadne)]

lemma twoDecCore_decompose {l : List Char} (h : twoDecCore l = true) :
    ∃ u n : Nat, n < 100 ∧ l = natDigits u ++ '.' :: twoDigits n ∧
      (u = 0 ∧ n = 0 → l = ['0', '.', '0', '0']) := by
  simp only [twoDecCore, Bool.and_eq_true, Bool.or_eq_true, bne_iff_ne, beq_iff_eq,
    Bool.not_eq_true', List.isEmpty_eq_false, decide_eq_true_eq] at h
  obtain ⟨⟨⟨⟨⟨hne, hlead⟩, hlen3⟩, hdot⟩, hd1⟩, hd2⟩ := h
  have hsplit := List.takeWhile_append_dropWhile isDigitCh l
  have hdigits : ∀ c ∈ l.takeWhile isDigitCh, isDigitCh c = true :=
    fun c hc => List.mem_takeWhile_imp hc
  rcases hr : l.dropWhile isDigitCh with _ | ⟨c0, _ | ⟨e1, _ | ⟨e2, _ | ⟨e3, r4⟩⟩⟩⟩ <;>
    rw [hr] at hlen3 hdot hd1 hd2 <;> simp only [List.length_cons, List.length_nil] at hlen3 <;>
    try omega
  have hc0 : c0 = '.' := by simpa using hdot
  rw [List.getD_cons_succ, List.getD_cons_zero] at hd1
  rw [List.getD_cons_succ, List.getD_cons_succ, List.getD_cons_zero] at hd2
  have hv1 := digitVal_lt_ten hd1
  have hv2 := digitVal_lt_ten hd2
  refine ⟨digitsToNat (l.takeWhile isDigitCh), 10 * digitVal e1 + digitVal e2, by omega, ?_, ?_⟩
  · have hnd := natDigits_digitsToNat (by simpa using hne) hdigits
      (fun h0 => by
        rcases hlead with hlead | hlead
        · exact absurd h0 hlead
        · exact hlead)
    have htwo : twoDigits (10 * digitVal e1 + digitVal e2) = [e1, e2] := by
      simp only [twoDigits]
      rw [show (10 * digitVal e1 + digitVal e2) / 10 = digitVal e1 from by omega,
        show (10 * digitVal e1 + digitVal e2) % 10 = digitVal e2 from by omega,
        ofNat_digitVal hd1, ofNat_digitVal hd2]
    rw [hnd, htwo, ← hc0, ← hr, hsplit]
  · rintro ⟨hu, hn⟩
    have he1 : e1 = '0' := digitVal_eq_zero hd1 (by omega)
    have he2 : e2 = '0' := digitVal_eq_zero hd2 (by omega)
    have hint0 : l.takeWhile isDigitCh = ['0'] := by
      rcases hlead with hlead | hlead
      · exact absurd (digitsToNat_pos (by simpa using hne) hdigits hlead) (by omega)
      · exact hlead
    rw [← hsplit, hint0, hr, hc0, he1, he2]
    rfl

/-- Every canonical two-decimal string is the formatted form of some
integer cent value. -/
lemma exists_cents_of_twoDec {s : String} (h : twoDecWellFormed s = true) :
    ∃ c : Int, s = fromCents c := by
  obtain ⟨l⟩ := s
  simp only [twoDecWellFormed] at h
  split at h
  · next hdash =>
    rcases hl : l with _ | ⟨c0, rest⟩
    · rw [hl] at hdash; exact absurd hdash (by decide)
    · rw [hl] at hdash h
      have hc0 : c0 = '-' := by simpa using hdash
      simp only [List.tail_cons, Bool.and_eq_true, decide_eq_true_eq] at h
      obtain ⟨hcore, hnz⟩ := h
      obtain ⟨u, n, hn, hrest, hzero⟩ := twoDecCore_decompose hcore
      refine ⟨-(u * 100 + n : Nat), ?_⟩
      have hpos : 0 < u * 100 + n := by
        by_contra hcon
        exact hnz (hzero (by omega))
      have habs : (-(u * 100 + n : Nat) : Int).natAbs = u * 100 + n := by omega
      have hneg : (-(u * 100 + n : Nat) : Int) < 0 := by omega
      apply congrArg String.mk
      show _ = (fromCents _).data
      rw [fromCents_data, if_pos hneg, habs,
        show (u * 100 + n) / 100 = u from by omega,
        show (u * 100 + n) % 100 = n from by omega,
        List.singleton_append, List.cons_append]
      rw [hc0, hrest]
  · next hdash =>
    obtain ⟨u, n, hn, hrest, _⟩ := twoDecCore_decompose h
    refine ⟨(u * 100 + n : Nat), ?_⟩
    apply congrArg String.mk
    have hnonneg : ¬((u * 100 + n : Nat) : Int) < 0 := by omega
    have habs : ((u * 100 + n : Nat) : Int).natAbs = u * 100 + n := by omega
    show _ = (fromCents _).data
    rw [fromCents_data, if_neg hnonneg, habs,
      show (u * 100 + n) / 100 = u from by omega,
      show (u * 100 + n) % 100 = n from by omega,
      List.nil_append]
    exact hrest

end Decimal

namespace Calculator

/-! ### `balanceMap` bookkeeping -/

lemma exceptBind_ok {ε α β : Type} (a : α) (f : α → Except ε β) :
    (Except.ok a : Except ε α) >>= f = f a := rfl

lemma exceptBind_err {ε α β : Type} (e : ε) (f : α → Except ε β) :
    (Except.error e : Except ε α) >>= f = Except.error e := rfl

lemma mapUpdate_same (m : BalMap) (k : String) (v : BalEntry) : mapUpdate m k v k = some v := by
  simp [mapUpdate]

lemma mapUpdate_other (m : BalMap) {k x : String} (v : BalEntry) (h : x ≠ k) :
    mapUpdate m k v x = m x := by
  simp [mapUpdate, h]

lemma invMap_update {f : BalMap} {ids : List String} {k : String} (hf : InvMap f ids)
    (hk : k ∈ ids) (v : BalEntry) : InvMap (mapUpdate f k v) ids := by
  intro x
  by_cases hx : x = k
  · subst hx
    simp [mapUpdate, hk]
  · rw [mapUpdate_other _ _ hx]
    exact hf x

lemma idsOf_cons (mem : Member) (rest : List Member) :
    idsOf (mem :: rest) = mem.id :: idsOf rest := rfl

lemma foldl_init_apply (members : List Member) (m : BalMap) (k : String) :
    (members.foldl (fun m mem => mapUpdate m mem.id ⟨0, 0⟩) m) k =
      if k ∈ idsOf members then some ⟨0, 0⟩ else m k := by
  induction members generalizing m with
  | nil => simp [idsOf]
  | cons mem rest ih =>
    simp only [List.foldl_cons, idsOf_cons, List.mem_cons]
    rw [ih]
    by_cases hk : k ∈ idsOf rest
    · simp [hk]
    · by_cases he : k = mem.id
      · simp [hk, he, mapUpdate]
      · simp [hk, he, mapUpdate]

lemma initMap_apply (members : List Member) (k : String) :
    initMap members k = if k ∈ idsOf members then some ⟨0, 0⟩ else none :=
  foldl_init_apply members _ k

lemma invMap_init (members : List Member) : InvMap (initMap members) (idsOf members) := by
  intro k
  rw [initMap_apply]
  split
  · next hk => simp [hk]
  · next hk => simp [hk]

lemma sumPaid_init (members : List Member) : sumPaid (initMap members) (idsOf members) = 0 := by
  apply List.sum_eq_zero
  intro x hx
  rw [List.mem_map] at hx
  obtain ⟨i, hi, rfl⟩ := hx
  rw [initMap_apply]
  simp [hi]

lemma sumOwed_init (members : List Member) : sumOwed (initMap members) (idsOf members) = 0 := by
  apply List.sum_eq_zero
  intro x hx
  rw [List.mem_map] at hx
  obtain ⟨i, hi, rfl⟩ := hx
  rw [initMap_apply]
  simp [hi]

lemma lookupEntry_ok {f : BalMap} {ids : List String} (hf : InvMap f ids) {k : String}
    (hk : k ∈ ids) : lookupEntry f k = Except.ok ((f k).getD ⟨0, 0⟩) := by
  have hs := (hf k).mpr hk
  rcases ho : f k with _ | v
  · rw [ho] at hs
    simp at hs
  · simp [lookupEntry, ho]

lemma lookupEntry_err {f : BalMap} {ids : List String} (hf : InvMap f ids) {k : String}
    (hk : k ∉ ids) : lookupEntry f k = Except.error CalcError.typeError := by
  rcases ho : f k with _ | v
  · simp [lookupEntry, ho]
  · exact absurd ((hf k).mp (by simp [ho])) hk

lemma sumPaid_update {ids : List String} (hnd : ids.Nodup) {k : String} (hk : k ∈ ids)
    (f : BalMap) (v : BalEntry) :
    sumPaid (mapUpdate f k v) ids
      = sumPaid f ids + v.paidCents - ((f k).getD ⟨0, 0⟩).paidCents := by
  induction ids with
  | nil => simp at hk
  | cons i rest ih =>
    rw [List.nodup_cons] at hnd
    rw [List.mem_cons] at hk
    simp only [sumPaid, List.map_cons, List.sum_cons]
    rcases hk with rfl | hk
    · rw [mapUpdate_same]
      have hcong : (rest.map fun x => ((mapUpdate f k v x).getD ⟨0, 0⟩).paidCents)
          = rest.map fun x => ((f x).getD ⟨0, 0⟩).paidCents :=
        List.map_congr_left (fun x hx => by
          rw [mapUpdate_other f v (fun he => hnd.1 (by rw [← he]; exact hx))])
      rw [hcong]
      simp only [Option.getD_some]
      omega
    · have hik : i ≠ k := fun he => hnd.1 (by rw [he]; exact hk)
      rw [mapUpdate_other f v hik]
      have hrec := ih hnd.2 hk
      simp only [sumPaid] at hrec
      omega

lemma sumOwed_update {ids : List String} (hnd : ids.Nodup) {k : String} (hk : k ∈ ids)
    (f : BalMap) (v : BalEntry) :
    sumOwed (mapUpdate f k v) ids
      = sumOwed f ids + v.owedCents - ((f k).getD ⟨0, 0⟩).owedCents := by
  induction ids with
  | nil => simp at hk
  | cons i rest ih =>
    rw [List.nodup_cons] at hnd
    rw [List.mem_cons] at hk
    simp only [sumOwed, List.map_cons, List.sum_cons]
    rcases hk with rfl | hk
    · rw [mapUpdate_same]
      have hcong : (rest.map fun x => ((mapUpdate f k v x).getD ⟨0, 0⟩).owedCents)
          = rest.map fun x => ((f x).getD ⟨0, 0⟩).owedCents :=
        List.map_congr_left (fun x hx => by
          rw [mapUpdate_other f v (fun he => hnd.1 (by rw [← he]; exact hx))])
      rw [hcong]
      simp only [Option.getD_some]
      omega
    · have hik : i ≠ k := fun he => hnd.1 (by rw [he]; exact hk)
      rw [mapUpdate_other f v hik]
      have hrec := ih hnd.2 hk
      simp only [sumOwed] at hrec
      omega

/-! ### Shares-object structure -/

lemma objInsert_keys (m : List (String × String)) (k v : String) (x : String) :
    x ∈ (objInsert m k v).map Prod.fst ↔ x ∈ m.map Prod.fst ∨ x = k := by
  unfold objInsert
  split
  · next hany =>
    have hkeys : ((m.map fun p => if p.1 = k then (k, v) else p).map Prod.fst)
        = m.map Prod.fst := by
      rw [List.map_map]
      apply List.map_congr_left
      intro p _
      by_cases hp : p.1 = k
      · simp [hp]
      · simp [hp]
    rw [hkeys]
    constructor
    · exact Or.inl
    · rintro (h | rfl)
      · exact h
      · rw [List.any_eq_true] at hany
        obtain ⟨p, hp, hpk⟩ := hany
        rw [decide_eq_true_eq] at hpk
        exact List.mem_map.mpr ⟨p, hp, hpk⟩
  · next hany =>
    rw [List.map_append, List.mem_append]
    simp

lemma foldl_objInsert_nodup : ∀ (ps : List (String × String)) (acc : List (String × String)),
    (ps.map Prod.fst).Nodup → (∀ p ∈ ps, ∀ q ∈ acc, p.1 ≠ q.1) →
    ps.foldl (fun m p => objInsert m p.1 p.2) acc = acc ++ ps := by
  intro ps
  induction ps with
  | nil => intro acc _ _; simp
  | cons p rest ih =>
    intro acc hnd hdisj
    rw [List.map_cons, List.nodup_cons] at hnd
    have hnot : acc.any (fun q => q.1 = p.1) = false := by
      rw [List.any_eq_false]
      intro q hq
      simpa using Ne.symm (hdisj p (List.mem_cons_self p rest) q hq)
    have hstep : objInsert acc p.1 p.2 = acc ++ [p] := by
      unfold objInsert
      rw [if_neg (by simp [hnot])]
    simp only [List.foldl_cons, hstep]
    rw [ih (acc ++ [p]) hnd.2 ?_, List.append_assoc, List.singleton_append]
    intro r hr q hq
    rw [List.mem_append, List.mem_singleton] at hq
    rcases hq with hq | rfl
    · exact hdisj r (List.mem_cons_of_mem p hr) q hq
    · intro he
      exact hnd.1 (he ▸ List.mem_map_of_mem Prod.fst hr)

lemma length_shares_amounts (e : Expense) (h0 : e.splitBetween.length ≠ 0) :
    (Decimal.divideEqually e.amount (e.splitBetween.length : Int)).length
      = e.splitBetween.length := by
  rw [Decimal.length_divideEqually (by exact_mod_cast Nat.pos_of_ne_zero h0)]
  simp

lemma calculateExpenseShares_eq_zip {e : Expense} (hnd : e.splitBetween.Nodup) :
    calculateExpenseShares e =
      e.splitBetween.zip (Decimal.divideEqually e.amount (e.splitBetween.length : Int)) := by
  unfold calculateExpenseShares
  by_cases h0 : e.splitBetween.length = 0
  · rw [if_pos h0]
    rw [List.length_eq_zero] at h0
    simp [h0]
  · rw [if_neg h0]
    rw [foldl_objInsert_nodup _ [] ?_ (fun p _ q hq => absurd hq (List.not_mem_nil q)),
      List.nil_append]
    rw [List.map_fst_zip _ _ (by rw [length_shares_amounts e h0])]
    exact hnd

lemma sharesSum {e : Expense} (hnd : e.splitBetween.Nodup) (hne : e.splitBetween ≠ []) :
    (((calculateExpenseShares e).map Prod.snd).map Decimal.toCents).sum
      = Decimal.toCents e.amount := by
  have h0 : e.splitBetween.length ≠ 0 := fun h => hne (List.length_eq_zero.mp h)
  have hpos : (0 : Int) < (e.splitBetween.length : Int) := by
    exact_mod_cast Nat.pos_of_ne_zero h0
  rw [calculateExpenseShares_eq_zip hnd,
    List.map_snd_zip _ _ (le_of_eq (length_shares_amounts e h0))]
  exact Decimal.sum_divideEqually hpos e.amount

lemma mem_keys_shares {e : Expense} {x : String} :
    x ∈ (calculateExpenseShares e).map Prod.fst ↔ x ∈ e.splitBetween := by
  unfold calculateExpenseShares
  by_cases h0 : e.splitBetween.length = 0
  · rw [if_pos h0]
    rw [List.length_eq_zero] at h0
    simp [h0]
  · rw [if_neg h0]
    have hfold : ∀ (ps : List (String × String)) (acc : List (String × String)),
        (x ∈ (ps.foldl (fun m p => objInsert m p.1 p.2) acc).map Prod.fst)
          ↔ x ∈ acc.map Prod.fst ∨ x ∈ ps.map Prod.fst := by
      intro ps
      induction ps with
      | nil => intro acc; simp
      | cons p rest ih =>
        intro acc
        simp only [List.foldl_cons, List.map_cons, List.mem_cons]
        rw [ih (objInsert acc p.1 p.2), objInsert_keys]
        tauto
    rw [hfold _ []]
    rw [List.map_fst_zip _ _ (le_of_eq (length_shares_amounts e h0).symm)]
    simp

end Calculator

namespace Calculator

/-! ### Processing one expense -/

lemma sharesFold_ok {ids : List String} : ∀ (ps : List (String × String)) {m : BalMap},
    InvMap m ids → (∀ p ∈ ps, p.1 ∈ ids) →
    ∃ m', (ps.foldlM (fun acc p => do
        let en ← lookupEntry acc p.1
        pure (mapUpdate acc p.1 ⟨en.paidCents, en.owedCents + Decimal.toCents p.2⟩)) m)
        = Except.ok m' ∧ InvMap m' ids := by
  intro ps
  induction ps with
  | nil =>
    intro m hm _
    exact ⟨m, rfl, hm⟩
  | cons p rest ih =>
    intro m hm hks
    have hp1 : p.1 ∈ ids := hks p (List.mem_cons_self p rest)
    rw [List.foldlM_cons, lookupEntry_ok hm hp1, exceptBind_ok, pure_bind]
    exact ih (invMap_update hm hp1 _) (fun q hq => hks q (List.mem_cons_of_mem p hq))

lemma sharesFold_err {ids : List String} : ∀ (ps : List (String × String)) {m : BalMap},
    InvMap m ids → (∃ p ∈ ps, p.1 ∉ ids) →
    (ps.foldlM (fun acc p => do
        let en ← lookupEntry acc p.1
        pure (mapUpdate acc p.1 ⟨en.paidCents, en.owedCents + Decimal.toCents p.2⟩)) m)
      = Except.error CalcError.typeError := by
  intro ps
  induction ps with
  | nil =>
    intro m _ hbad
    simp at hbad
  | cons p rest ih =>
    intro m hm hbad
    by_cases hp1 : p.1 ∈ ids
    · rw [List.foldlM_cons, lookupEntry_ok hm hp1, exceptBind_ok, pure_bind]
      apply ih (invMap_update hm hp1 _)
      obtain ⟨q, hq, hqbad⟩ := hbad
      rcases List.mem_cons.mp hq with rfl | hq
      · exact absurd hp1 hqbad
      · exact ⟨q, hq, hqbad⟩
    · rw [List.foldlM_cons, lookupEntry_err hm hp1, exceptBind_err, exceptBind_err]

lemma sharesFold_sums {ids : List String} (hnd : ids.Nodup) :
    ∀ (ps : List (String × String)) {m : BalMap},
    InvMap m ids → (∀ p ∈ ps, p.1 ∈ ids) →
    ∃ m', (ps.foldlM (fun acc p => do
        let en ← lookupEntry acc p.1
        pure (mapUpdate acc p.1 ⟨en.paidCents, en.owedCents + Decimal.toCents p.2⟩)) m)
        = Except.ok m' ∧ InvMap m' ids ∧
      sumPaid m' ids = sumPaid m ids ∧
      sumOwed m' ids = sumOwed m ids + ((ps.map Prod.snd).map Decimal.toCents).sum := by
  intro ps
  induction ps with
  | nil =>
    intro m hm _
    exact ⟨m, rfl, hm, rfl, by simp⟩
  | cons p rest ih =>
    intro m hm hks
    have hp1 : p.1 ∈ ids := hks p (List.mem_cons_self p rest)
    rw [List.foldlM_cons, lookupEntry_ok hm hp1, exceptBind_ok, pure_bind]
    obtain ⟨m', hok, hinv, hsp, hso⟩ :=
      ih (invMap_update hm hp1 _) (fun q hq => hks q (List.mem_cons_of_mem p hq))
    refine ⟨m', hok, hinv, ?_, ?_⟩
    · rw [hsp, sumPaid_update hnd hp1]
      simp
    · rw [hso, sumOwed_update hnd hp1]
      simp only [List.map_cons, List.sum_cons]
      omega

lemma applyExpense_ok {ids : List String} {f : BalMap} {e : Expense} (hf : InvMap f ids)
    (hpay : e.paidBy ∈ ids) (hpart : ∀ p ∈ e.splitBetween, p ∈ ids) :
    ∃ f', applyExpense f e = Except.ok f' ∧ InvMap f' ids := by
  unfold applyExpense
  rw [lookupEntry_ok hf hpay, exceptBind_ok]
  exact sharesFold_ok _ (invMap_update hf hpay _)
    (fun p hp => hpart p.1 (mem_keys_shares.mp (List.mem_map_of_mem Prod.fst hp)))

lemma applyExpense_err {ids : List String} {f : BalMap} {e : Expense} (hf : InvMap f ids)
    (hbad : e.paidBy ∉ ids ∨ ∃ p ∈ e.splitBetween, p ∉ ids) :
    applyExpense f e = Except.error CalcError.typeError := by
  unfold applyExpense
  rcases hbad with hbad | ⟨q, hq, hqbad⟩
  · rw [lookupEntry_err hf hbad, exceptBind_err]
  · by_cases hpay : e.paidBy ∈ ids
    · rw [lookupEntry_ok hf hpay, exceptBind_ok]
      apply sharesFold_err _ (invMap_update hf hpay _)
      obtain ⟨pr, hpr, hpr1⟩ := List.mem_map.mp (mem_keys_shares.mpr hq)
      exact ⟨pr, hpr, by rw [hpr1]; exact hqbad⟩
    · rw [lookupEntry_err hf hpay, exceptBind_err]

lemma applyExpense_sums {ids : List String} (hnd : ids.Nodup) {f : BalMap} {e : Expense}
    (hf : InvMap f ids) (hpay : e.paidBy ∈ ids) (hpart : ∀ p ∈ e.splitBetween, p ∈ ids)
    (hne : e.splitBetween ≠ []) (hsplit : e.splitBetween.Nodup) :
    ∃ f', applyExpense f e = Except.ok f' ∧ InvMap f' ids ∧
      sumPaid f' ids = sumPaid f ids + Decimal.toCents e.amount ∧
      sumOwed f' ids = sumOwed f ids + Decimal.toCents e.amount := by
  unfold applyExpense
  rw [lookupEntry_ok hf hpay, exceptBind_ok]
  obtain ⟨f', hok, hinv, hsp, hso⟩ := sharesFold_sums hnd _ (invMap_update hf hpay _)
    (fun p hp => hpart p.1 (mem_keys_shares.mp (List.mem_map_of_mem Prod.fst hp)))
  refine ⟨f', hok, hinv, ?_, ?_⟩
  · rw [hsp, sumPaid_update hnd hpay]
    dsimp only
    omega
  · rw [hso, sumOwed_update hnd hpay, sharesSum hsplit hne]
    dsimp only
    omega

/-! ### Folding the expense list -/

lemma foldExpenses_sums {ids : List String} (hnd : ids.Nodup) :
    ∀ (expenses : List Expense) {f : BalMap}, InvMap f ids →
    (∀ e ∈ expenses, e.paidBy ∈ ids ∧ (∀ p ∈ e.splitBetween, p ∈ ids) ∧
      e.splitBetween ≠ [] ∧ e.splitBetween.Nodup) →
    ∃ f', expenses.foldlM applyExpense f = Except.ok f' ∧ InvMap f' ids ∧
      sumPaid f' ids = sumPaid f ids + (expenses.map (fun e => Decimal.toCents e.amount)).sum ∧
      sumOwed f' ids = sumOwed f ids + (expenses.map (fun e => Decimal.toCents e.amount)).sum := by
  intro expenses
  induction expenses with
  | nil =>
    intro f hf _
    exact ⟨f, rfl, hf, by simp, by simp⟩
  | cons e rest ih =>
    intro f hf hgood
    obtain ⟨hpay, hpart, hne, hsplit⟩ := hgood e (List.mem_cons_self e rest)
    obtain ⟨f1, hok1, hinv1, hsp1, hso1⟩ := applyExpense_sums hnd hf hpay hpart hne hsplit
    rw [List.foldlM_cons, hok1, exceptBind_ok]
    obtain ⟨f', hok, hinv, hsp, hso⟩ :=
      ih hinv1 (fun x hx => hgood x (List.mem_cons_of_mem e hx))
    refine ⟨f', hok, hinv, ?_, ?_⟩
    · rw [hsp, hsp1]
      simp only [List.map_cons, List.sum_cons]
      omega
    · rw [hso, hso1]
      simp only [List.map_cons, List.sum_cons]
      omega

lemma foldExpenses_err {ids : List String} : ∀ (expenses : List Expense) {f : BalMap},
    InvMap f ids →
    (∃ e ∈ expenses, e.paidBy ∉ ids ∨ ∃ p ∈ e.splitBetween, p ∉ ids) →
    expenses.foldlM applyExpense f = Except.error CalcError.typeError := by
  intro expenses
  induction expenses with
  | nil =>
    intro f _ hbad
    simp at hbad
  | cons e rest ih =>
    intro f hf hbad
    by_cases he : e.paidBy ∉ ids ∨ ∃ p ∈ e.splitBetween, p ∉ ids
    · rw [List.foldlM_cons, applyExpense_err hf he, exceptBind_err]
    · push_neg at he
      obtain ⟨f1, hok1, hinv1⟩ := applyExpense_ok hf he.1 he.2
      rw [List.foldlM_cons, hok1, exceptBind_ok]
      apply ih hinv1
      obtain ⟨x, hx, hxbad⟩ := hbad
      rcases List.mem_cons.mp hx with rfl | hx
      · rcases hxbad with hxbad | ⟨q, hq, hqbad⟩
        · exact absurd he.1 hxbad
        · exact absurd (he.2 q hq) hqbad
      · exact ⟨x, hx, hxbad⟩

/-! ### `calculateBalances` assembly -/

lemma calculateBalances_eq_ok {members : List Member} {expenses : List Expense} {f' : BalMap}
    (hfold : expenses.foldlM applyExpense (initMap members) = Except.ok f') :
    calculateBalances members expenses = Except.ok (members.map (balanceRow f')) := by
  unfold calculateBalances
  rw [hfold, exceptBind_ok]
  rfl

lemma calculateBalances_eq_err {members : List Member} {expenses : List Expense}
    (hfold : expenses.foldlM applyExpense (initMap members) = Except.error CalcError.typeError) :
    calculateBalances members expenses = Except.error CalcError.typeError := by
  unfold calculateBalances
  rw [hfold, exceptBind_err]

lemma sumPaidStr_rows (f : BalMap) (members : List Member) :
    sumPaidStr (members.map (balanceRow f)) = sumPaid f (idsOf members) := by
  unfold sumPaidStr sumPaid idsOf
  rw [List.map_map, List.map_map]
  congr 1
  apply List.map_congr_left
  intro mem _
  simp [balanceRow, Decimal.toCents_fromCents]

lemma sumOwedStr_rows (f : BalMap) (members : List Member) :
    sumOwedStr (members.map (balanceRow f)) = sumOwed f (idsOf members) := by
  unfold sumOwedStr sumOwed idsOf
  rw [List.map_map, List.map_map]
  congr 1
  apply List.map_congr_left
  intro mem _
  simp [balanceRow, Decimal.toCents_fromCents]

lemma sumNet_rows (f : BalMap) (members : List Member) :
    sumNet (members.map (balanceRow f)) = sumPaid f (idsOf members) - sumOwed f (idsOf members) := by
  induction members with
  | nil => simp [sumNet, sumPaid, sumOwed, idsOf]
  | cons mem rest ih =>
    simp only [sumNet, sumPaid, sumOwed, idsOf_cons, List.map_cons, List.sum_cons] at ih ⊢
    rw [show Decimal.toCents (balanceRow f mem).netBalance
        = ((f mem.id).getD ⟨0, 0⟩).paidCents - ((f mem.id).getD ⟨0, 0⟩).owedCents from by
      simp [balanceRow, Decimal.toCents_fromCents]]
    omega

end Calculator

namespace Calculator

/-! ### Creditor/debtor lists -/

lemma compare_zero (a : String) : Decimal.compare a "0.00" = Decimal.toCents a := by
  unfold Decimal.compare
  rw [show Decimal.toCents "0.00" = 0 from by decide, sub_zero]

lemma creditorEntries_pos {bs : List Balance} : ∀ e ∈ creditorEntries bs, 0 < e.amountCents := by
  intro e he
  unfold creditorEntries at he
  rw [List.mem_map] at he
  obtain ⟨b, hb, rfl⟩ := he
  have hgt := List.of_mem_filter hb
  rw [decide_eq_true_eq, compare_zero] at hgt
  exact hgt

lemma debtorEntries_pos {bs : List Balance} : ∀ e ∈ debtorEntries bs, 0 < e.amountCents := by
  intro e he
  unfold debtorEntries at he
  rw [List.mem_map] at he
  obtain ⟨b, hb, rfl⟩ := he
  have hlt := List.of_mem_filter hb
  rw [decide_eq_true_eq, compare_zero] at hlt
  dsimp only
  omega

lemma sortDesc_perm (es : List Entry) : (sortDesc es).Perm es := List.perm_insertionSort _ es

lemma sumE_perm {es es' : List Entry} (h : es.Perm es') : sumE es = sumE es' :=
  (h.map Entry.amountCents).sum_eq

lemma idSum_perm (X : String) {es es' : List Entry} (h : es.Perm es') :
    idSum X es = idSum X es' :=
  ((h.filter _).map Entry.amountCents).sum_eq

lemma sumE_cons (e : Entry) (es : List Entry) : sumE (e :: es) = e.amountCents + sumE es := by
  simp [sumE]

lemma idSum_cons (X : String) (e : Entry) (es : List Entry) :
    idSum X (e :: es) = (if e.memberId = X then e.amountCents else 0) + idSum X es := by
  unfold idSum
  by_cases h : e.memberId = X
  · simp [List.filter_cons, h]
  · simp [List.filter_cons, h]

lemma amountTo_append (X : String) (a b : List Settlement) :
    amountTo X (a ++ b) = amountTo X a + amountTo X b := by
  unfold amountTo
  rw [List.filter_append, List.map_append, List.sum_append]

lemma amountFrom_append (X : String) (a b : List Settlement) :
    amountFrom X (a ++ b) = amountFrom X a + amountFrom X b := by
  unfold amountFrom
  rw [List.filter_append, List.map_append, List.sum_append]

lemma amountTo_single (X : String) (s : Settlement) :
    amountTo X [s] = if s.toId = X then Decimal.toCents s.amount else 0 := by
  unfold amountTo
  by_cases h : s.toId = X
  · simp [List.filter_cons, h]
  · simp [List.filter_cons, h]

lemma amountFrom_single (X : String) (s : Settlement) :
    amountFrom X [s] = if s.fromId = X then Decimal.toCents s.amount else 0 := by
  unfold amountFrom
  by_cases h : s.fromId = X
  · simp [List.filter_cons, h]
  · simp [List.filter_cons, h]

lemma sumE_nonneg {es : List Entry} (hpos : ∀ e ∈ es, 0 < e.amountCents) : 0 ≤ sumE es := by
  induction es with
  | nil => simp [sumE]
  | cons e rest ih =>
    rw [sumE_cons]
    have h1 := hpos e (List.mem_cons_self e rest)
    have h2 := ih (fun x hx => hpos x (List.mem_cons_of_mem e hx))
    omega

lemma sumE_pos {es : List Entry} (hpos : ∀ e ∈ es, 0 < e.amountCents) (hne : es ≠ []) :
    0 < sumE es := by
  cases es with
  | nil => exact absurd rfl hne
  | cons e rest =>
    rw [sumE_cons]
    have h1 := hpos e (List.mem_cons_self e rest)
    have h2 := sumE_nonneg (fun x hx => hpos x (List.mem_cons_of_mem e hx))
    omega

/-! ### The matching loop -/

lemma settleLoop_nil_left (ds : List Entry) : settleLoop [] ds = [] := by
  simp [settleLoop]

lemma settleLoop_nil_right (c : Entry) (cs : List Entry) : settleLoop (c :: cs) [] = [] := by
  simp [settleLoop]

lemma settleLoop_length_aux : ∀ (n : Nat) (cs ds : List Entry), cs.length + ds.length ≤ n →
    (settleLoop cs ds).length ≤ cs.length + ds.length - 1 := by
  intro n
  induction n with
  | zero =>
    intro cs ds h
    match cs, ds with
    | [], ds => rw [settleLoop_nil_left]; simp
    | c :: cs, [] => rw [settleLoop_nil_right]; simp
  | succ n ih =>
    intro cs ds h
    match cs, ds with
    | [], ds => rw [settleLoop_nil_left]; simp
    | c :: cs, [] => rw [settleLoop_nil_right]; simp
    | c :: cs, d :: ds =>
      simp only [List.length_cons] at h
      simp only [settleLoop]
      by_cases h1 : c.amountCents ≤ d.amountCents
      · rw [if_pos h1]
        by_cases h3 : c.amountCents = d.amountCents
        · rw [if_pos h3]
          have hrec := ih cs ds (by omega)
          rcases Decidable.em (0 < c.amountCents) with h2 | h2
          · rw [if_pos h2]
            simp only [List.length_append, List.length_cons, List.length_nil]
            omega
          · rw [if_neg h2]
            simp only [List.length_append, List.length_cons, List.length_nil]
            omega
        · rw [if_neg h3]
          have hrec := ih cs ({ d with amountCents := d.amountCents - c.amountCents } :: ds)
            (by simp only [List.length_cons]; omega)
          simp only [List.length_cons] at hrec
          rcases Decidable.em (0 < c.amountCents) with h2 | h2
          · rw [if_pos h2]
            simp only [List.length_append, List.length_cons, List.length_nil]
            omega
          · rw [if_neg h2]
            simp only [List.length_append, List.length_cons, List.length_nil]
            omega
      · rw [if_neg h1]
        have hrec := ih ({ c with amountCents := c.amountCents - d.amountCents } :: cs) ds
          (by simp only [List.length_cons]; omega)
        simp only [List.length_cons] at hrec
        rcases Decidable.em (0 < d.amountCents) with h2 | h2
        · rw [if_pos h2]
          simp only [List.length_append, List.length_cons, List.length_nil]
          omega
        · rw [if_neg h2]
          simp only [List.length_append, List.length_cons, List.length_nil]
          omega

lemma settleLoop_length (cs ds : List Entry) :
    (settleLoop cs ds).length ≤ cs.length + ds.length - 1 :=
  settleLoop_length_aux (cs.length + ds.length) cs ds le_rfl

end Calculator

namespace Calculator

/-- The matching loop fully drains both lists when total credits equal
total debits: each creditor entry receives exactly its amount and each
debtor entry pays exactly its amount, grouped by member id. -/
lemma settleLoop_spec : ∀ (n : Nat) (cs ds : List Entry), cs.length + ds.length ≤ n →
    (∀ e ∈ cs, 0 < e.amountCents) → (∀ e ∈ ds, 0 < e.amountCents) →
    sumE cs = sumE ds →
    ∀ X, amountTo X (settleLoop cs ds) = idSum X cs ∧
      amountFrom X (settleLoop cs ds) = idSum X ds := by
  intro n
  induction n with
  | zero =>
    intro cs ds h hc hd hsum X
    match cs, ds with
    | [], [] => simp [settleLoop_nil_left, amountTo, amountFrom, idSum]
    | [], d :: ds => simp at h
    | c :: cs, ds => simp at h
  | succ n ih =>
    intro cs ds h hc hd hsum X
    match cs, ds with
    | [], ds =>
      have hds : ds = [] := by
        cases ds with
        | nil => rfl
        | cons d ds =>
          exfalso
          have hpos := sumE_pos hd (by simp)
          rw [← hsum] at hpos
          simp [sumE] at hpos
      subst hds
      simp [settleLoop_nil_left, amountTo, amountFrom, idSum]
    | c :: cs, [] =>
      exfalso
      have hpos := sumE_pos hc (by simp)
      rw [hsum] at hpos
      simp [sumE] at hpos
    | c :: cs, d :: ds =>
      simp only [List.length_cons] at h
      have hcpos : 0 < c.amountCents := hc c (List.mem_cons_self c cs)
      have hdpos : 0 < d.amountCents := hd d (List.mem_cons_self d ds)
      rw [sumE_cons, sumE_cons] at hsum
      have hctail : ∀ e ∈ cs, 0 < e.amountCents :=
        fun e he => hc e (List.mem_cons_of_mem c he)
      have hdtail : ∀ e ∈ ds, 0 < e.amountCents :=
        fun e he => hd e (List.mem_cons_of_mem d he)
      simp only [settleLoop]
      by_cases h1 : c.amountCents ≤ d.amountCents
      · rw [if_pos h1, if_pos hcpos]
        by_cases h3 : c.amountCents = d.amountCents
        · rw [if_pos h3]
          obtain ⟨iha, ihb⟩ := ih cs ds (by omega) hctail hdtail (by omega) X
          constructor
          · rw [amountTo_append, amountTo_single, iha, idSum_cons]
            dsimp only
            rw [Decimal.toCents_fromCents]
          · rw [amountFrom_append, amountFrom_single, ihb, idSum_cons]
            dsimp only
            rw [Decimal.toCents_fromCents, h3]
        · rw [if_neg h3]
          obtain ⟨iha, ihb⟩ := ih cs ({ d with amountCents := d.amountCents - c.amountCents } :: ds)
            (by simp only [List.length_cons]; omega) hctail
            (by
              intro e he
              rcases List.mem_cons.mp he with rfl | he
              · dsimp only
                omega
              · exact hdtail e he)
            (by rw [sumE_cons]; dsimp only; omega) X
          constructor
          · rw [amountTo_append, amountTo_single, iha, idSum_cons]
            dsimp only
            rw [Decimal.toCents_fromCents]
          · rw [amountFrom_append, amountFrom_single, ihb, idSum_cons, idSum_cons]
            dsimp only
            rw [Decimal.toCents_fromCents]
            by_cases hdx : d.memberId = X
            · rw [if_pos hdx, if_pos hdx, if_pos hdx]
              omega
            · rw [if_neg hdx, if_neg hdx, if_neg hdx]
              omega
      · rw [if_neg h1, if_pos hdpos]
        obtain ⟨iha, ihb⟩ := ih ({ c with amountCents := c.amountCents - d.amountCents } :: cs) ds
          (by simp only [List.length_cons]; omega)
          (by
            intro e he
            rcases List.mem_cons.mp he with rfl | he
            · dsimp only
              omega
            · exact hctail e he)
          hdtail (by rw [sumE_cons]; dsimp only; omega) X
        constructor
        · rw [amountTo_append, amountTo_single, iha, idSum_cons, idSum_cons]
          dsimp only
          rw [Decimal.toCents_fromCents]
          by_cases hcx : c.memberId = X
          · rw [if_pos hcx, if_pos hcx, if_pos hcx]
            omega
          · rw [if_neg hcx, if_neg hcx, if_neg hcx]
            omega
        · rw [amountFrom_append, amountFrom_single, ihb, idSum_cons]
          dsimp only
          rw [Decimal.toCents_fromCents]

end Calculator

namespace Calculator

lemma credCond_true {b : Balance} (hb : 0 < Decimal.toCents b.netBalance) :
    (fun b : Balance => decide (0 < Decimal.compare b.netBalance "0.00")) b = true := by
  show decide (0 < Decimal.compare b.netBalance "0.00") = true
  rw [decide_eq_true_eq, compare_zero]
  exact hb

lemma credCond_false {b : Balance} (hb : ¬0 < Decimal.toCents b.netBalance) :
    ¬(fun b : Balance => decide (0 < Decimal.compare b.netBalance "0.00")) b = true := by
  show ¬decide (0 < Decimal.compare b.netBalance "0.00") = true
  rw [decide_eq_true_eq, compare_zero]
  exact hb

lemma debtCond_true {b : Balance} (hb : Decimal.toCents b.netBalance < 0) :
    (fun b : Balance => decide (Decimal.compare b.netBalance "0.00" < 0)) b = true := by
  show decide (Decimal.compare b.netBalance "0.00" < 0) = true
  rw [decide_eq_true_eq, compare_zero]
  exact hb

lemma debtCond_false {b : Balance} (hb : ¬Decimal.toCents b.netBalance < 0) :
    ¬(fun b : Balance => decide (Decimal.compare b.netBalance "0.00" < 0)) b = true := by
  show ¬decide (Decimal.compare b.netBalance "0.00" < 0) = true
  rw [decide_eq_true_eq, compare_zero]
  exact hb

lemma sumE_entries (bs : List Balance) :
    sumE (creditorEntries bs) - sumE (debtorEntries bs) = sumNet bs := by
  induction bs with
  | nil => simp [creditorEntries, debtorEntries, sumE, sumNet]
  | cons b rest ih =>
    unfold creditorEntries debtorEntries sumNet sumE at ih ⊢
    rcases lt_trichotomy (Decimal.toCents b.netBalance) 0 with hb | hb | hb
    · have hc1 : (decide (0 < Decimal.compare b.netBalance "0.00")) = false := by
        rw [decide_eq_false_iff_not, compare_zero]
        omega
      have hd1 : (decide (Decimal.compare b.netBalance "0.00" < 0)) = true := by
        rw [decide_eq_true_eq, compare_zero]
        omega
      simp only [List.filter_cons, hc1, hd1, Bool.false_eq_true, if_false, if_true,
        List.map_cons, List.sum_cons]
      omega
    · have hc1 : (decide (0 < Decimal.compare b.netBalance "0.00")) = false := by
        rw [decide_eq_false_iff_not, compare_zero]
        omega
      have hd1 : (decide (Decimal.compare b.netBalance "0.00" < 0)) = false := by
        rw [decide_eq_false_iff_not, compare_zero]
        omega
      simp only [List.filter_cons, hc1, hd1, Bool.false_eq_true, if_false,
        List.map_cons, List.sum_cons]
      omega
    · have hc1 : (decide (0 < Decimal.compare b.netBalance "0.00")) = true := by
        rw [decide_eq_true_eq, compare_zero]
        omega
      have hd1 : (decide (Decimal.compare b.netBalance "0.00" < 0)) = false := by
        rw [decide_eq_false_iff_not, compare_zero]
        omega
      simp only [List.filter_cons, hc1, hd1, Bool.false_eq_true, if_false, if_true,
        List.map_cons, List.sum_cons]
      omega

lemma idSum_entries (X : String) (bs : List Balance) :
    idSum X (creditorEntries bs) - idSum X (debtorEntries bs) = netIdSum X bs := by
  induction bs with
  | nil => simp [creditorEntries, debtorEntries, idSum, netIdSum]
  | cons b rest ih =>
    unfold creditorEntries debtorEntries netIdSum idSum at ih ⊢
    have hcpos : ∀ (h : 0 < Decimal.toCents b.netBalance),
        (decide (0 < Decimal.compare b.netBalance "0.00")) = true := fun h => by
      rw [decide_eq_true_eq, compare_zero]
      omega
    have hcneg : ∀ (h : ¬0 < Decimal.toCents b.netBalance),
        (decide (0 < Decimal.compare b.netBalance "0.00")) = false := fun h => by
      rw [decide_eq_false_iff_not, compare_zero]
      omega
    have hdpos : ∀ (h : Decimal.toCents b.netBalance < 0),
        (decide (Decimal.compare b.netBalance "0.00" < 0)) = true := fun h => by
      rw [decide_eq_true_eq, compare_zero]
      omega
    have hdneg : ∀ (h : ¬Decimal.toCents b.netBalance < 0),
        (decide (Decimal.compare b.netBalance "0.00" < 0)) = false := fun h => by
      rw [decide_eq_false_iff_not, compare_zero]
      omega
    rcases lt_trichotomy (Decimal.toCents b.netBalance) 0 with hb | hb | hb
    · by_cases hX : b.memberId = X
      · simp only [List.filter_cons, hcneg (by omega), hdpos hb, Bool.false_eq_true, if_false,
          if_true, List.map_cons, hX, decide_True, List.sum_cons]
        omega
      · simp only [List.filter_cons, hcneg (by omega), hdpos hb, Bool.false_eq_true, if_false,
          if_true, List.map_cons, hX, decide_False, List.sum_cons]
        omega
    · by_cases hX : b.memberId = X
      · simp only [List.filter_cons, hcneg (by omega), hdneg (by omega), Bool.false_eq_true,
          if_false, hX, decide_True, if_true, List.map_cons, List.sum_cons]
        omega
      · simp only [List.filter_cons, hcneg (by omega), hdneg (by omega), Bool.false_eq_true,
          if_false, hX, decide_False]
        omega
    · by_cases hX : b.memberId = X
      · simp only [List.filter_cons, hcpos hb, hdneg (by omega), Bool.false_eq_true, if_false,
          if_true, List.map_cons, hX, decide_True, List.sum_cons]
        omega
      · simp only [List.filter_cons, hcpos hb, hdneg (by omega), Bool.false_eq_true, if_false,
          if_true, List.map_cons, hX, decide_False, List.sum_cons]
        omega

end Calculator

open Calculator

/-! ## Claim theorems -/

/-- C1: for every member list (with the data model's unique ids) and every
expense list in which each expense's payer id and all participant ids
refer to members in the list and each expense has a non-empty participant
set, the balances returned by `calculateBalances` satisfy: the sum of
`totalPaid` equals the sum of `totalOwed`, and the sum of `netBalance` is
exactly zero, in minor units. -/
theorem claim_C1_conservation (members : List Member) (expenses : List Expense)
    (hids : (members.map Member.id).Nodup)
    (hgood : ∀ e ∈ expenses, e.paidBy ∈ members.map Member.id ∧
      (∀ p ∈ e.splitBetween, p ∈ members.map Member.id) ∧
      e.splitBetween ≠ [] ∧ e.splitBetween.Nodup) :
    ∃ bs, calculateBalances members expenses = Except.ok bs ∧
      sumPaidStr bs = sumOwedStr bs ∧ sumNet bs = 0 := by
  obtain ⟨f', hok, hinv, hsp, hso⟩ := foldExpenses_sums hids expenses (invMap_init members) hgood
  have hform : List.map Member.id members = idsOf members := rfl
  rw [hform] at hsp hso
  refine ⟨members.map (balanceRow f'), calculateBalances_eq_ok hok, ?_, ?_⟩
  · rw [sumPaidStr_rows, sumOwedStr_rows, hsp, hso, sumPaid_init, sumOwed_init]
  · rw [sumNet_rows, hsp, hso, sumPaid_init, sumOwed_init]
    omega

/-- Witness for C1 at a concrete two-member, one-expense input. -/
theorem claim_C1_witness :
    (([⟨"a", "A"⟩, ⟨"b", "B"⟩] : List Member).map Member.id).Nodup ∧
    (∀ e ∈ ([⟨"100.00", "a", ["a", "b"]⟩] : List Expense),
      e.paidBy ∈ ([⟨"a", "A"⟩, ⟨"b", "B"⟩] : List Member).map Member.id ∧
      (∀ p ∈ e.splitBetween, p ∈ ([⟨"a", "A"⟩, ⟨"b", "B"⟩] : List Member).map Member.id) ∧
      e.splitBetween ≠ [] ∧ e.splitBetween.Nodup) ∧
    (∃ bs, calculateBalances [⟨"a", "A"⟩, ⟨"b", "B"⟩] [⟨"100.00", "a", ["a", "b"]⟩]
        = Except.ok bs ∧ sumPaidStr bs = sumOwedStr bs ∧ sumNet bs = 0) :=
  ⟨by decide, by decide, claim_C1_conservation _ _ (by decide) (by decide)⟩

/-- C2: for every balance list whose net balances sum to zero in minor
units, the settlements returned by `calculateSettlements` exactly
neutralize every member's balance: for every member id `X`, settlement
money flowing to `X` minus settlement money flowing from `X` equals the
net balance recorded for `X`. -/
theorem claim_C2_settlements_neutralize (balances : List Balance)
    (hzero : sumNet balances = 0) :
    ∀ X : String,
      amountTo X (calculateSettlements balances)
        - amountFrom X (calculateSettlements balances) = netIdSum X balances := by
  intro X
  unfold calculateSettlements
  have hc : ∀ e ∈ sortDesc (creditorEntries balances), 0 < e.amountCents :=
    fun e he => creditorEntries_pos e ((sortDesc_perm _).mem_iff.mp he)
  have hd : ∀ e ∈ sortDesc (debtorEntries balances), 0 < e.amountCents :=
    fun e he => debtorEntries_pos e ((sortDesc_perm _).mem_iff.mp he)
  have hsum : sumE (sortDesc (creditorEntries balances))
      = sumE (sortDesc (debtorEntries balances)) := by
    rw [sumE_perm (sortDesc_perm _), sumE_perm (sortDesc_perm _)]
    have hse := sumE_entries balances
    omega
  obtain ⟨ha, hb⟩ := settleLoop_spec
    ((sortDesc (creditorEntries balances)).length + (sortDesc (debtorEntries balances)).length)
    _ _ le_rfl hc hd hsum X
  rw [ha, hb, idSum_perm X (sortDesc_perm _), idSum_perm X (sortDesc_perm _)]
  exact idSum_entries X balances

/-- Witness for C2 at a concrete balanced input. -/
theorem claim_C2_witness :
    sumNet [⟨"a", "A", "0.00", "0.00", "1.00"⟩, ⟨"b", "B", "0.00", "0.00", "-1.00"⟩] = 0 ∧
    ∀ X : String,
      amountTo X (calculateSettlements
          [⟨"a", "A", "0.00", "0.00", "1.00"⟩, ⟨"b", "B", "0.00", "0.00", "-1.00"⟩])
        - amountFrom X (calculateSettlements
          [⟨"a", "A", "0.00", "0.00", "1.00"⟩, ⟨"b", "B", "0.00", "0.00", "-1.00"⟩])
        = netIdSum X [⟨"a", "A", "0.00", "0.00", "1.00"⟩, ⟨"b", "B", "0.00", "0.00", "-1.00"⟩] :=
  ⟨by decide, claim_C2_settlements_neutralize _ (by decide)⟩

/-- C3: for every amount string with non-negative cent value and every
positive part count `n`, `divideEqually` returns exactly `n` shares whose
cent values sum to the total exactly; each share is `floor(total/n)` or
`floor(total/n) + 1` cents, and the shares are exactly `total mod n`
extra-unit shares first, followed by base shares. -/
theorem claim_C3_divide_exact (s : String) (parts : Int)
    (htotal : 0 ≤ Decimal.toCents s) (hparts : 0 < parts) :
    (Decimal.divideEqually s parts).length = parts.toNat ∧
    ((Decimal.divideEqually s parts).map Decimal.toCents).sum = Decimal.toCents s ∧
    (∀ x ∈ (Decimal.divideEqually s parts).map Decimal.toCents,
      x = (Decimal.toCents s).fdiv parts ∨ x = (Decimal.toCents s).fdiv parts + 1) ∧
    (Decimal.divideEqually s parts).map Decimal.toCents =
      List.replicate ((Decimal.toCents s).fmod parts).toNat
          ((Decimal.toCents s).fdiv parts + 1) ++
        List.replicate (parts.toNat - ((Decimal.toCents s).fmod parts).toNat)
          ((Decimal.toCents s).fdiv parts) :=
  ⟨Decimal.length_divideEqually hparts s, Decimal.sum_divideEqually hparts s,
    fun _ hx => Decimal.mem_divideEqually hparts s hx,
    Decimal.map_toCents_divideEqually hparts s⟩

/-- Witness for C3 at `"1.00"` split three ways. -/
theorem claim_C3_witness :
    0 ≤ Decimal.toCents "1.00" ∧ (0 : Int) < 3 ∧
    ((Decimal.divideEqually "1.00" 3).length = (3 : Int).toNat ∧
      ((Decimal.divideEqually "1.00" 3).map Decimal.toCents).sum = Decimal.toCents "1.00" ∧
      (∀ x ∈ (Decimal.divideEqually "1.00" 3).map Decimal.toCents,
        x = (Decimal.toCents "1.00").fdiv 3 ∨ x = (Decimal.toCents "1.00").fdiv 3 + 1) ∧
      (Decimal.divideEqually "1.00" 3).map Decimal.toCents =
        List.replicate ((Decimal.toCents "1.00").fmod 3).toNat
            ((Decimal.toCents "1.00").fdiv 3 + 1) ++
          List.replicate ((3 : Int).toNat - ((Decimal.toCents "1.00").fmod 3).toNat)
            ((Decimal.toCents "1.00").fdiv 3)) :=
  ⟨by decide, by decide, claim_C3_divide_exact "1.00" 3 (by decide) (by decide)⟩

/-- C4 counterexample: on an expense whose payer id `"x"` is not a member,
`calculateBalances` does not fail with the spec's `InvalidReference`
precondition violation — it throws the JS `TypeError` arising from
reading a property of `undefined`. -/
theorem claim_C4_counterexample :
    calculateBalances [⟨"a", "A"⟩] [⟨"1.00", "x", ["a"]⟩] = Except.error CalcError.typeError ∧
    calculateBalances [⟨"a", "A"⟩] [⟨"1.00", "x", ["a"]⟩]
      ≠ Except.error CalcError.invalidReference := by
  constructor
  · decide
  · decide

/-- C4 (amended): when `calculateBalances` is given an expense whose payer
id or some participant id is not present in the member list, it fails by
throwing the JS `TypeError` raised when reading a property of
`undefined` (not a structured `InvalidReference` error); it does not
silently skip the expense and does not return a result, and being a
computation on fresh local structures it mutates no input. -/
theorem claim_C4_typeError (members : List Member) (expenses : List Expense)
    (hbad : ∃ e ∈ expenses, e.paidBy ∉ members.map Member.id ∨
      ∃ p ∈ e.splitBetween, p ∉ members.map Member.id) :
    calculateBalances members expenses = Except.error CalcError.typeError :=
  calculateBalances_eq_err (foldExpenses_err expenses (invMap_init members) hbad)

/-- Witness for the amended C4 at the counterexample input. -/
theorem claim_C4_witness :
    (∃ e ∈ ([⟨"1.00", "x", ["a"]⟩] : List Expense),
      e.paidBy ∉ ([⟨"a", "A"⟩] : List Member).map Member.id ∨
      ∃ p ∈ e.splitBetween, p ∉ ([⟨"a", "A"⟩] : List Member).map Member.id) ∧
    calculateBalances [⟨"a", "A"⟩] [⟨"1.00", "x", ["a"]⟩] = Except.error CalcError.typeError :=
  ⟨by decide, claim_C4_typeError _ _ (by decide)⟩

/-- C5: for every well-formed (canonical) decimal string with exactly two
fractional digits, converting to minor units and formatting back yields
the string unchanged: `fromCents (toCents s) = s`. -/
theorem claim_C5_money_roundtrip (s : String) (h : Decimal.twoDecWellFormed s = true) :
    Decimal.fromCents (Decimal.toCents s) = s := by
  obtain ⟨c, rfl⟩ := Decimal.exists_cents_of_twoDec h
  rw [Decimal.toCents_fromCents]

/-- Witness for C5 at `"12.34"`. -/
theorem claim_C5_witness :
    Decimal.twoDecWellFormed "12.34" = true ∧
    Decimal.fromCents (Decimal.toCents "12.34") = "12.34" :=
  ⟨by decide, claim_C5_money_roundtrip "12.34" (by decide)⟩

/-- C6: `divideEqually` on a total of 10 minor units (`"0.10"`) and part
count 3 returns shares worth `[4, 3, 3]` cents — the total of 10 is
preserved and the single remainder unit goes to the first share. -/
theorem claim_C6_divide_ten_three :
    Decimal.divideEqually "0.10" 3 = ["0.04", "0.03", "0.03"] ∧
    (Decimal.divideEqually "0.10" 3).map Decimal.toCents = [4, 3, 3] ∧
    ((Decimal.divideEqually "0.10" 3).map Decimal.toCents).sum = 10 := by
  refine ⟨by decide, by decide, by decide⟩

/-- C7: for every amount and every part count at most zero,
`divideEqually` returns the empty sequence (and in particular never
reaches the division). -/
theorem claim_C7_degenerate_split (s : String) (parts : Int) (h : parts ≤ 0) :
    Decimal.divideEqually s parts = [] := by
  unfold Decimal.divideEqually
  rw [if_pos h]

/-- Witness for C7 at part count zero. -/
theorem claim_C7_witness :
    (0 : Int) ≤ 0 ∧ Decimal.divideEqually "5.00" 0 = [] :=
  ⟨by decide, claim_C7_degenerate_split "5.00" 0 (by decide)⟩

/-- C8: `calculateBalances` and `calculateSettlements` are deterministic
pure functions: two invocations on equal inputs return identical
outputs (in this pure embedding there is no state to mutate; the source
only writes to structures it allocates itself). -/
theorem claim_C8_determinism (m1 m2 : List Member) (e1 e2 : List Expense)
    (b1 b2 : List Balance) (hm : m1 = m2) (he : e1 = e2) (hb : b1 = b2) :
    calculateBalances m1 e1 = calculateBalances m2 e2 ∧
    calculateSettlements b1 = calculateSettlements b2 := by
  subst hm
  subst he
  subst hb
  exact ⟨rfl, rfl⟩

/-- Witness for C8 at a concrete input. -/
theorem claim_C8_witness :
    ([⟨"a", "A"⟩] : List Member) = [⟨"a", "A"⟩] ∧
    ([] : List Expense) = [] ∧ ([] : List Balance) = [] ∧
    (calculateBalances [⟨"a", "A"⟩] [] = calculateBalances [⟨"a", "A"⟩] [] ∧
      calculateSettlements [] = calculateSettlements []) :=
  ⟨rfl, rfl, rfl, claim_C8_determinism _ _ _ _ _ _ rfl rfl rfl⟩

/-- C9: `toCents` applied to an empty string, a whitespace-only string, or
a string that does not parse as a (fixed-point decimal) number returns
exactly 0 rather than raising an error (the function is total). -/
theorem claim_C9_invalid_to_zero (s : String)
    (h : Decimal.trimChars s.data = [] ∨
      Decimal.parseDecimal (Decimal.trimChars s.data) = none) :
    Decimal.toCents s = 0 := by
  rcases h with h | h
  · simp only [Decimal.toCents, h, List.isEmpty_nil, if_true]
  · simp only [Decimal.toCents, h]
    split <;> rfl

/-- Witness for C9 at a non-numeric, an empty, and a whitespace-only
string. -/
theorem claim_C9_witness :
    Decimal.parseDecimal (Decimal.trimChars ("abc".data)) = none ∧
    Decimal.toCents "abc" = 0 ∧ Decimal.toCents "" = 0 ∧ Decimal.toCents "   " = 0 :=
  ⟨by decide, claim_C9_invalid_to_zero "abc" (Or.inr (by decide)),
    claim_C9_invalid_to_zero "" (Or.inl (by decide)),
    claim_C9_invalid_to_zero "   " (Or.inl (by decide))⟩

/-- C10: for every balances input, every creditor and debtor work item
starts strictly positive, and the matching loop of
`calculateSettlements` (total by construction) emits at most
`C + D - 1` settlements, where `C` and `D` are the numbers of creditors
and debtors. -/
theorem claim_C10_loop_bound (balances : List Balance) :
    (∀ e ∈ sortDesc (creditorEntries balances), 0 < e.amountCents) ∧
    (∀ e ∈ sortDesc (debtorEntries balances), 0 < e.amountCents) ∧
    (calculateSettlements balances).length ≤
      (balances.filter (fun b => 0 < Decimal.compare b.netBalance "0.00")).length +
        (balances.filter (fun b => Decimal.compare b.netBalance "0.00" < 0)).length - 1 := by
  refine ⟨fun e he => creditorEntries_pos e ((sortDesc_perm _).mem_iff.mp he),
    fun e he => debtorEntries_pos e ((sortDesc_perm _).mem_iff.mp he), ?_⟩
  have hlen := settleLoop_length (sortDesc (creditorEntries balances))
    (sortDesc (debtorEntries balances))
  have h1 : (sortDesc (creditorEntries balances)).length
      = (balances.filter (fun b => 0 < Decimal.compare b.netBalance "0.00")).length := by
    rw [(sortDesc_perm _).length_eq]
    unfold creditorEntries
    rw [List.length_map]
  have h2 : (sortDesc (debtorEntries balances)).length
      = (balances.filter (fun b => Decimal.compare b.netBalance "0.00" < 0)).length := by
    rw [(sortDesc_perm _).length_eq]
    unfold debtorEntries
    rw [List.length_map]
  unfold calculateSettlements
  omega
